/-
Verification of the excellor-ai retrieval core: a shallow embedding of
the document-to-chunk-to-embedding pipeline and the similarity-search
engine, together with proofs of the specified properties.

Sources embedded here:
  * chunkText, and its sentence splitting     (document processor module)
  * generateEmbedding / generateSimpleVector / simpleHash
  * storeDocument / getAllDocuments / deleteDocument / clearAllDocuments
  * searchSimilarChunks / fallbackTextSearch / cosineSimilarity

Modelling conventions:
  * JS numbers are modelled as ℝ (vector entries, similarities) or as
    ℕ/ℤ where the code only ever holds integers; 32-bit wrap-around in
    simpleHash is explicit (mod 2^32).
  * JS strings are Lean Strings; `.length` counts characters (equal to
    the JS UTF-16 count on the BMP inputs considered here), `charCodeAt`
    is `Char.toNat`.
  * The remote embedding service and the fuzzy matcher (fuse.js) are
    external collaborators, passed in as explicit parameters.
  * localForage key-value stores are association lists in insertion
    order; `setItem` replaces in place or appends, `iterate` walks the
    list in order.
  * async/try/catch: each storage-touching operation takes an explicit
    flag saying whether the underlying storage throws during the
    operation, and returns `Except String`; `Except.error` models a
    rejected promise reaching the caller.
-/
import Mathlib

namespace Excellor

/-! ## Embedding provider -/

/-- `EMBEDDING_DIMENSIONS = 3072` (text-embedding-3-large). -/
def EMBEDDING_DIMENSIONS : ℕ := 3072

/-- Wrap an integer to a signed 32-bit value, as JS `x & x` (ToInt32) does. -/
def toInt32 (n : ℤ) : ℤ := (n + 2 ^ 31) % 2 ^ 32 - 2 ^ 31

/-- One iteration of simpleHash:
`hash = ((hash << 5) - hash) + char; hash = hash & hash`.
`hash << 5` first truncates the shifted value to Int32; the outer `& hash`
truncates the sum. -/
def simpleHashStep (hash : ℤ) (c : Char) : ℤ :=
  toInt32 (toInt32 (hash * 32) - hash + c.toNat)

/-- `simpleHash(str)`: fold the step over the characters starting from 0,
then `Math.abs`. -/
def simpleHash (s : String) : ℕ :=
  (s.toList.foldl simpleHashStep 0).natAbs

/-- JS `s.split(/\s+/)`: pieces of `s` between maximal whitespace runs,
including an empty piece at either end when `s` starts/ends with
whitespace, and `[""]` for the empty string.  Returned as a guaranteed
nonempty (head, tail) pair. -/
def wsSplitGo : List Char → List Char → String × List String
  | [], acc => (String.mk acc.reverse, [])
  | c :: cs, acc =>
    if c.isWhitespace then
      let rest := wsSplitGo (cs.dropWhile Char.isWhitespace) []
      (String.mk acc.reverse, rest.1 :: rest.2)
    else
      wsSplitGo cs (c :: acc)
termination_by l _ => l.length
decreasing_by
  · exact Nat.lt_succ_of_le (List.dropWhile_sublist _).length_le
  · simp

/-- JS `s.split(/\s+/)` as a list (always nonempty). -/
def wsSplit (s : String) : List String :=
  (wsSplitGo s.toList []).1 :: (wsSplitGo s.toList []).2

/-- `vector[i] += x` (the code only ever uses `i < 3072`, the vector's
length, so the in-range `List.set` is exact). -/
noncomputable def addAt (v : List ℝ) (i : ℕ) (x : ℝ) : List ℝ :=
  v.set i (v.getD i 0 + x)

/-- Word-hash features: for each word, `vector[simpleHash(word) % D] += 1`. -/
noncomputable def addWordFeatures (v : List ℝ) (words : List String) : List ℝ :=
  words.foldl (fun v w => addAt v (simpleHash w % EMBEDDING_DIMENSIONS) 1) v

/-- Character features: for each character of the original text,
`vector[(charCode * 17) % D] += 0.1`. -/
noncomputable def addCharFeatures (v : List ℝ) (cs : List Char) : List ℝ :=
  cs.foldl (fun v c => addAt v ((c.toNat * 17) % EMBEDDING_DIMENSIONS) (1 / 10)) v

/-- The simple vector before normalization: a 3072-slot zero vector,
plus word-hash features of `text.toLowerCase().split(/\s+/)`, plus
character features of the original text. -/
noncomputable def rawSimpleVector (text : String) : List ℝ :=
  addCharFeatures
    (addWordFeatures (List.replicate EMBEDDING_DIMENSIONS 0)
      (wsSplit (text.map Char.toLower)))
    text.toList

/-- `vector.reduce((sum, val) => sum + val * val, 0)`. -/
def sumSq (v : List ℝ) : ℝ := (v.map (fun x => x * x)).sum

/-- `Math.sqrt` of the sum of squares. -/
noncomputable def magnitude (v : List ℝ) : ℝ := Real.sqrt (sumSq v)

/-- `generateSimpleVector(text)`: build the raw feature vector, then
L2-normalize it when its magnitude is positive (otherwise return it
unchanged). -/
noncomputable def generateSimpleVector (text : String) : List ℝ :=
  let vector := rawSimpleVector text
  let m := magnitude vector
  if 0 < m then vector.map (fun val => val / m) else vector

/-- Outcome of one call to the remote embedding service, as observed by
`generateEmbedding`'s try block: either some failure before an embedding
array is extracted (missing API key, fetch rejection, non-ok status,
missing `data[0].embedding`), or a successfully extracted numeric array. -/
inductive RemoteResult where
  | failure
  | success (emb : List ℝ)

/-- `generateEmbedding(text)`: on the remote path, the extracted array is
returned only when its length is exactly `EMBEDDING_DIMENSIONS`
(otherwise the thrown dimension error is caught); every failure falls
back to `generateSimpleVector(text)`. -/
noncomputable def generateEmbedding (r : RemoteResult) (text : String) : List ℝ :=
  match r with
  | .success emb =>
      if emb.length = EMBEDDING_DIMENSIONS then emb else generateSimpleVector text
  | .failure => generateSimpleVector text

/-! ## Chunker

JS string primitives, implemented by structural recursion on the
character list so that they evaluate inside the kernel. -/

/-- JS `s.split(sep)` at every character satisfying `delim`, keeping
empty pieces (`"a..b".split('.') = ["a", "", "b"]`). -/
def jsSplitGo (delim : Char → Bool) : List Char → List Char → List String
  | [], acc => [String.mk acc.reverse]
  | c :: cs, acc =>
      if delim c then String.mk acc.reverse :: jsSplitGo delim cs []
      else jsSplitGo delim cs (c :: acc)

def jsSplit (delim : Char → Bool) (s : String) : List String :=
  jsSplitGo delim s.toList []

/-- JS `s.trim()`: strip whitespace from both ends. -/
def jsTrim (s : String) : String :=
  String.mk (((s.toList.dropWhile Char.isWhitespace).reverse.dropWhile
    Char.isWhitespace).reverse)

/-- JS `words.join(' ')`. -/
def joinWords : List String → String
  | [] => ""
  | [w] => w
  | w :: ws => w ++ " " ++ joinWords ws

/-- Sentence delimiters of the split regex `/[.!?]+/`. -/
def isSentenceDelim (c : Char) : Bool := c = '.' || c = '!' || c = '?'

/-- `text.split(/[.!?]+/).filter(s => s.trim().length > 0)`.
(Splitting at every single delimiter and dropping whitespace-only pieces
agrees with the regex split of runs, whose only extra output pieces are
empty strings.) -/
def sentencesOf (text : String) : List String :=
  (jsSplit isSentenceDelim text).filter (fun s => 0 < (jsTrim s).length)

/-- `words.slice(-Math.min(overlap / 5, words.length / 2))` for
`words = currentChunk.split(' ')`.
Both divisions truncate (`slice` applies ToIntegerOrInfinity to the
fractional minimum, and truncation commutes with `min` on nonnegative
values), so the count is the ℕ-division minimum; `slice(-0)` is
`slice(0)`, the whole array. -/
def overlapWindow (chunk : String) (overlap : ℕ) : List String :=
  let words := jsSplit (· = ' ') chunk
  let k := min (overlap / 5) (words.length / 2)
  if k = 0 then words else words.drop (words.length - k)

/-- Accumulator of chunkText's loop: emitted chunks plus the running
buffer `currentChunk`. -/
structure ChunkState where
  chunks : List String
  current : String

/-- One iteration of chunkText's `for (const sentence of sentences)` body. -/
def chunkStep (maxChunkSize overlap : ℕ) (st : ChunkState) (sentence : String) : ChunkState :=
  let trimmedSentence := jsTrim sentence
  if trimmedSentence = "" then st
  else
    let proposedChunk :=
      st.current ++ (if st.current = "" then "" else ". ") ++ trimmedSentence
    if proposedChunk.length ≤ maxChunkSize then
      { st with current := proposedChunk }
    else if st.current = "" then
      -- handle very long sentences
      { st with current := trimmedSentence }
    else
      let overlapWords := overlapWindow st.current overlap
      { chunks := st.chunks ++ [st.current ++ "."],
        current := joinWords overlapWords
          ++ (if overlapWords = [] then "" else ". ") ++ trimmedSentence }

/-- `chunkText(text, maxChunkSize = 1000, overlap = 100)`: split into
sentence units, greedily accumulate with overlap seeding, flush the last
buffer, and drop chunks of trimmed length ≤ 10. -/
def chunkText (text : String) (maxChunkSize : ℕ := 1000) (overlap : ℕ := 100) :
    List String :=
  let sentences := sentencesOf text
  let st := sentences.foldl (chunkStep maxChunkSize overlap) ⟨[], ""⟩
  let allChunks := if st.current = "" then st.chunks else st.chunks ++ [st.current ++ "."]
  allChunks.filter (fun chunk => 10 < (jsTrim chunk).length)

/-! ## Cosine similarity -/

/-- `a.reduce((sum, val, i) => sum + val * b[i], 0)`; only ever invoked
on equal-length vectors (the caller returns 0 otherwise). -/
noncomputable def dotProduct (a b : List ℝ) : ℝ := (List.zipWith (· * ·) a b).sum

/-- `cosineSimilarity(a, b)`: 0 on length mismatch or a zero magnitude,
otherwise the normalized dot product. -/
noncomputable def cosineSimilarity (a b : List ℝ) : ℝ :=
  if a.length ≠ b.length then 0
  else if magnitude a = 0 ∨ magnitude b = 0 then 0
  else dotProduct a b / (magnitude a * magnitude b)

/-! ## Corpus store data model -/

/-- File format tag. -/
inductive FType where
  | pdf
  | docx
  | txt
deriving DecidableEq

/-- Chunk metadata `{source, page?, chunkIndex, type}`. -/
structure ChunkMetadata where
  source : String
  page : Option ℕ
  chunkIndex : ℕ
  ftype : FType

/-- `DocumentChunk {id, content, metadata, embedding?}`. -/
structure DocumentChunk where
  id : String
  content : String
  metadata : ChunkMetadata
  embedding : Option (List ℝ)

/-- `ProcessedDocument {id, name, type, chunks, totalPages?, createdAt}`;
`createdAt` is the epoch-millisecond value `getTime()` compares. -/
structure ProcessedDocument where
  id : String
  name : String
  ftype : FType
  chunks : List DocumentChunk
  totalPages : Option ℕ
  createdAt : ℤ

/-- The per-chunk record kept in the embeddings store:
`{documentId, embedding, content, metadata}`. -/
structure EmbeddingRecord where
  documentId : String
  embedding : List ℝ
  content : String
  metadata : ChunkMetadata

/-- A localForage instance: keys in insertion order. -/
abbrev KV (α : Type) : Type := List (String × α)

/-- `getItem(k)`: first value stored at `k`. -/
def lookupItem {α : Type} : KV α → String → Option α
  | [], _ => none
  | (k, v) :: rest, key => if k = key then some v else lookupItem rest key

/-- `setItem(k, v)`: replace in place, or append a fresh key. -/
def setItem {α : Type} : KV α → String → α → KV α
  | [], key, v => [(key, v)]
  | (k, w) :: rest, key, v =>
      if k = key then (key, v) :: rest else (k, w) :: setItem rest key v

/-- `removeItem(k)`. -/
def removeItem {α : Type} : KV α → String → KV α
  | [], _ => []
  | (k, v) :: rest, key =>
      if k = key then removeItem rest key else (k, v) :: removeItem rest key

/-- The two localForage instances backing the corpus. -/
structure Store where
  documents : KV ProcessedDocument
  embeddings : KV EmbeddingRecord

/-! ## Corpus store operations

Each operation takes a `fail : Bool` flag meaning "the underlying
storage throws during this operation"; the `Except` result is the
promise seen by the caller. -/

/-- Chunk embedding inside `storeDocument`:
`{...chunk, embedding: await generateEmbedding(chunk.content)}`, one
remote call per chunk (`remote` gives each call's outcome). -/
noncomputable def embedChunks (remote : String → RemoteResult)
    (chunks : List DocumentChunk) : List DocumentChunk :=
  chunks.map (fun chunk =>
    { chunk with embedding := some (generateEmbedding (remote chunk.content) chunk.content) })

/-- The successful path of `storeDocument`: embed every chunk, store the
document under its id, then store one embedding record per chunk. -/
noncomputable def storeDocumentPure (remote : String → RemoteResult)
    (document : ProcessedDocument) (st : Store) : Store :=
  let chunksWithEmbeddings := embedChunks remote document.chunks
  let documentWithEmbeddings := { document with chunks := chunksWithEmbeddings }
  { documents := setItem st.documents document.id documentWithEmbeddings,
    embeddings := chunksWithEmbeddings.foldl
      (fun db chunk => setItem db chunk.id
        ⟨document.id, chunk.embedding.getD [], chunk.content, chunk.metadata⟩)
      st.embeddings }

/-- `storeDocument`: a storage error is caught and re-thrown as
`Failed to store document: ...`. -/
noncomputable def storeDocument (remote : String → RemoteResult) (fail : Bool)
    (document : ProcessedDocument) (st : Store) : Except String Store :=
  if fail then .error "Failed to store document" else .ok (storeDocumentPure remote document st)

/-- Descending-`createdAt` comparison used by
`documents.sort((a, b) => b.createdAt.getTime() - a.createdAt.getTime())`. -/
def newerFirst (a b : ProcessedDocument) : Prop := b.createdAt ≤ a.createdAt

instance : DecidableRel newerFirst := fun a b => Int.decLe b.createdAt a.createdAt

instance : IsTotal ProcessedDocument newerFirst :=
  ⟨fun a b => Int.le_total b.createdAt a.createdAt⟩

instance : IsTrans ProcessedDocument newerFirst :=
  ⟨fun _ _ _ hab hbc => le_trans hbc hab⟩

/-- The successful path of `getAllDocuments`: collect every stored value
and sort it most-recently-created first (JS `sort` is stable, so any
stable sort — here insertion sort — models it). -/
def getAllDocumentsPure (st : Store) : List ProcessedDocument :=
  List.insertionSort newerFirst (st.documents.map Prod.snd)

/-- `getAllDocuments`: a storage error is caught and an EMPTY list is
returned (`catch ... return []`), not an error. -/
def getAllDocuments (fail : Bool) (st : Store) : Except String (List ProcessedDocument) :=
  if fail then .ok [] else .ok (getAllDocumentsPure st)

/-- The successful path of `deleteDocument`: if the id is stored, remove
each of its chunks' embedding records, then remove the document;
otherwise do nothing. -/
def deleteDocumentPure (documentId : String) (st : Store) : Store :=
  match lookupItem st.documents documentId with
  | none => st
  | some document =>
      { documents := removeItem st.documents documentId,
        embeddings := document.chunks.foldl
          (fun db chunk => removeItem db chunk.id) st.embeddings }

/-- `deleteDocument`: a storage error is caught and re-thrown as
`Failed to delete document`. -/
def deleteDocument (fail : Bool) (documentId : String) (st : Store) : Except String Store :=
  if fail then .error "Failed to delete document" else .ok (deleteDocumentPure documentId st)

/-- `clearAllDocuments`: clear both instances, or re-throw
`Failed to clear documents`. -/
def clearAllDocuments (fail : Bool) (_st : Store) : Except String Store :=
  if fail then .error "Failed to clear documents" else .ok ⟨[], []⟩

/-! ## Similarity search engine -/

/-- A retained semantic hit: the similarity that was pushed alongside
the chunk fields. -/
structure SearchHit where
  similarity : ℝ
  chunk : DocumentChunk

/-- The semantic scan of `searchSimilarChunks`: every embedding record
whose `content` is truthy (the `embedding` field is always a present
array in a well-typed store) and whose cosine similarity against the
query vector strictly exceeds the threshold, in iteration order. -/
noncomputable def semanticRetained (queryEmbedding : List ℝ) (threshold : ℝ)
    (st : Store) : List SearchHit :=
  st.embeddings.filterMap (fun p =>
    if p.2.content ≠ "" ∧ threshold < cosineSimilarity queryEmbedding p.2.embedding then
      some ⟨cosineSimilarity queryEmbedding p.2.embedding,
        ⟨p.1, p.2.content, p.2.metadata, some p.2.embedding⟩⟩
    else none)

/-- Descending-similarity comparison used by
`.sort((a, b) => b.similarity - a.similarity)` (stable). -/
def moreSimilar (a b : SearchHit) : Prop := b.similarity ≤ a.similarity

noncomputable instance : DecidableRel moreSimilar :=
  fun a b => Real.decidableLE b.similarity a.similarity

instance : IsTotal SearchHit moreSimilar := ⟨fun a b => le_total b.similarity a.similarity⟩

instance : IsTrans SearchHit moreSimilar := ⟨fun _ _ _ hab hbc => le_trans hbc hab⟩

/-- `fallbackTextSearch(query, topK)`: collect every record with truthy
content as a chunk (no embedding field), hand the list to the fuzzy
matcher (fuse.js with `threshold: 0.4`, an external collaborator modelled
by `fuse`, which returns items in match-quality order), and keep the
first `topK`. -/
def allChunksOf (st : Store) : List DocumentChunk :=
  st.embeddings.filterMap (fun p =>
    if p.2.content ≠ "" then some ⟨p.1, p.2.content, p.2.metadata, none⟩ else none)

def fallbackTextSearch (fuse : String → List DocumentChunk → List DocumentChunk)
    (query : String) (topK : ℕ) (st : Store) : List DocumentChunk :=
  (fuse query (allChunksOf st)).take topK

/-- `searchSimilarChunks(query, topK = 3, threshold = 0.3)`: embed the
query, retain records above the threshold, sort by similarity descending,
keep `topK`; if that list is empty — or anything threw (`fail`) — run the
lexical fallback instead. -/
noncomputable def searchSimilarChunks (fuse : String → List DocumentChunk → List DocumentChunk)
    (remote : String → RemoteResult) (fail : Bool) (query : String)
    (topK : ℕ) (threshold : ℝ) (st : Store) : List DocumentChunk :=
  if fail then fallbackTextSearch fuse query topK st
  else
    let queryEmbedding := generateEmbedding (remote query) query
    let sortedChunks :=
      ((List.insertionSort moreSimilar (semanticRetained queryEmbedding threshold st)).take
        topK).map SearchHit.chunk
    if sortedChunks.length = 0 then fallbackTextSearch fuse query topK st else sortedChunks

/-! ## Helper lemmas -/

/-- A property preserved by every step of a fold holds of its result. -/
theorem foldl_invariant {α β : Type _} (P : β → Prop) (f : β → α → β) :
    ∀ (l : List α) (b : β), P b → (∀ b a, a ∈ l → P b → P (f b a)) → P (l.foldl f b)
  | [], _, hb, _ => hb
  | a :: l, b, hb, h =>
      foldl_invariant P f l (f b a) (h b a (.head _) hb)
        (fun b' a' ha' => h b' a' (.tail _ ha'))

theorem getD_set_self_of_lt {v : List ℝ} {i : ℕ} (x : ℝ) (hi : i < v.length) :
    (v.set i x).getD i 0 = x := by
  rw [List.getD_eq_getElem?_getD, List.getElem?_set_self hi, Option.getD_some]

theorem getD_addAt_le (v : List ℝ) (i j : ℕ) (x : ℝ) (hx : 0 ≤ x) :
    v.getD j 0 ≤ (addAt v i x).getD j 0 := by
  unfold addAt
  rcases Nat.lt_or_ge i v.length with hi | hi
  · by_cases hij : i = j
    · subst hij
      rw [getD_set_self_of_lt _ hi]
      linarith
    · simp only [List.getD_eq_getElem?_getD, List.getElem?_set_ne hij, le_refl]
  · rw [List.set_eq_of_length_le hi]

theorem getD_replicate_zero (n i : ℕ) : (List.replicate n (0 : ℝ)).getD i 0 = 0 := by
  rcases Nat.lt_or_ge i n with h | h
  · rw [List.getD_eq_getElem _ _ (by simpa using h), List.getElem_replicate]
  · exact List.getD_eq_default _ _ (by simpa using h)

theorem addWordFeatures_cons (v : List ℝ) (w : String) (ws : List String) :
    addWordFeatures v (w :: ws) =
      addWordFeatures (addAt v (simpleHash w % EMBEDDING_DIMENSIONS) 1) ws := rfl

theorem getD_addWordFeatures_le (v : List ℝ) (words : List String) (j : ℕ) :
    v.getD j 0 ≤ (addWordFeatures v words).getD j 0 :=
  foldl_invariant (fun (u : List ℝ) => v.getD j 0 ≤ u.getD j 0) _ words v le_rfl
    (fun _ _ _ hb => le_trans hb (getD_addAt_le _ _ _ _ zero_le_one))

theorem getD_addCharFeatures_le (v : List ℝ) (cs : List Char) (j : ℕ) :
    v.getD j 0 ≤ (addCharFeatures v cs).getD j 0 :=
  foldl_invariant (fun (u : List ℝ) => v.getD j 0 ≤ u.getD j 0) _ cs v le_rfl
    (fun _ _ _ hb => le_trans hb (getD_addAt_le _ _ _ _ (by norm_num)))

theorem length_addAt (v : List ℝ) (i : ℕ) (x : ℝ) :
    (addAt v i x).length = v.length := by
  simp [addAt]

theorem length_addWordFeatures (v : List ℝ) (words : List String) :
    (addWordFeatures v words).length = v.length :=
  foldl_invariant (fun u => u.length = v.length) _ words v rfl
    (fun _ _ _ hb => (length_addAt _ _ _).trans hb)

theorem length_addCharFeatures (v : List ℝ) (cs : List Char) :
    (addCharFeatures v cs).length = v.length :=
  foldl_invariant (fun u => u.length = v.length) _ cs v rfl
    (fun _ _ _ hb => (length_addAt _ _ _).trans hb)

theorem length_rawSimpleVector (text : String) :
    (rawSimpleVector text).length = EMBEDDING_DIMENSIONS := by
  unfold rawSimpleVector
  rw [length_addCharFeatures, length_addWordFeatures, List.length_replicate]

theorem sumSq_nonneg (v : List ℝ) : 0 ≤ sumSq v :=
  List.sum_nonneg (by
    intro x hx
    obtain ⟨y, _, rfl⟩ := List.mem_map.mp hx
    exact mul_self_nonneg y)

theorem getD_sq_le_sumSq (v : List ℝ) (j : ℕ) :
    v.getD j 0 * v.getD j 0 ≤ sumSq v := by
  induction v generalizing j with
  | nil => simp [sumSq]
  | cons a tl ih =>
      cases j with
      | zero =>
          have := sumSq_nonneg tl
          simp only [List.getD_cons_zero, sumSq, List.map_cons, List.sum_cons]
          have htl : sumSq tl = (tl.map (fun x => x * x)).sum := rfl
          linarith [htl ▸ this]
      | succ j =>
          have := ih j
          simp only [List.getD_cons_succ, sumSq, List.map_cons, List.sum_cons]
          have htl : sumSq tl = (tl.map (fun x => x * x)).sum := rfl
          nlinarith [mul_self_nonneg a, htl ▸ this]

theorem sumSq_map_div (v : List ℝ) (m : ℝ) :
    sumSq (v.map (fun x => x / m)) = sumSq v / (m * m) := by
  induction v with
  | nil => simp [sumSq]
  | cons a tl ih =>
      simp only [List.map_cons, sumSq, List.sum_cons] at ih ⊢
      rw [ih, div_mul_div_comm, div_add_div_same]

/-! ## C1 and C10: the embedding provider -/

/-- The raw simple vector is strictly positive in the bucket of the
first word of the whitespace split (which always exists, even for empty
text), since every feature increment is nonnegative and that bucket
starts with `+= 1`. -/
theorem sumSq_rawSimpleVector_pos (text : String) :
    0 < sumSq (rawSimpleVector text) := by
  have hD : 0 < EMBEDDING_DIMENSIONS := by norm_num [EMBEDDING_DIMENSIONS]
  -- the whitespace split always has a first word
  obtain ⟨w0, ws, hsplit⟩ : ∃ w ws, wsSplit (text.map Char.toLower) = w :: ws :=
    ⟨_, _, rfl⟩
  have hjD : simpleHash w0 % EMBEDDING_DIMENSIONS < EMBEDDING_DIMENSIONS :=
    Nat.mod_lt _ hD
  -- after the first word's increment, its bucket holds exactly 1
  have hbase :
      (addAt (List.replicate EMBEDDING_DIMENSIONS (0 : ℝ))
        (simpleHash w0 % EMBEDDING_DIMENSIONS) 1).getD
        (simpleHash w0 % EMBEDDING_DIMENSIONS) 0 = 1 := by
    unfold addAt
    rw [getD_set_self_of_lt _ (by simpa using hjD), getD_replicate_zero, zero_add]
  -- all later increments only grow that bucket
  have h1 : 1 ≤ (rawSimpleVector text).getD (simpleHash w0 % EMBEDDING_DIMENSIONS) 0 := by
    unfold rawSimpleVector
    rw [hsplit, addWordFeatures_cons]
    calc (1 : ℝ) = _ := hbase.symm
      _ ≤ _ := getD_addWordFeatures_le _ _ _
      _ ≤ _ := getD_addCharFeatures_le _ _ _
  nlinarith [getD_sq_le_sumSq (rawSimpleVector text)
    (simpleHash w0 % EMBEDDING_DIMENSIONS)]

theorem magnitude_generateSimpleVector (text : String) :
    magnitude (generateSimpleVector text) = 1 := by
  have hpos := sumSq_rawSimpleVector_pos text
  have hm : 0 < magnitude (rawSimpleVector text) := Real.sqrt_pos.mpr hpos
  unfold generateSimpleVector
  rw [if_pos hm]
  unfold magnitude
  rw [sumSq_map_div, Real.mul_self_sqrt (le_of_lt hpos)]
  rw [div_self (ne_of_gt hpos), Real.sqrt_one]

theorem length_generateSimpleVector (text : String) :
    (generateSimpleVector text).length = EMBEDDING_DIMENSIONS := by
  have hm : 0 < magnitude (rawSimpleVector text) :=
    Real.sqrt_pos.mpr (sumSq_rawSimpleVector_pos text)
  unfold generateSimpleVector
  rw [if_pos hm, List.length_map]
  exact length_rawSimpleVector text

/-- C10: for every input text (the empty string included) the raw
fallback feature vector has strictly positive squared magnitude, so the
all-zero branch of `generateSimpleVector` is unreachable, the returned
vector is exactly L2-normalized (unit magnitude), and it has length
3072.  Determinism is definitional: `generateSimpleVector` is a pure
function of its text argument. -/
theorem generateSimpleVector_spec (text : String) :
    0 < sumSq (rawSimpleVector text) ∧
    magnitude (generateSimpleVector text) = 1 ∧
    (generateSimpleVector text).length = EMBEDDING_DIMENSIONS :=
  ⟨sumSq_rawSimpleVector_pos text, magnitude_generateSimpleVector text,
    length_generateSimpleVector text⟩

/-- C1: `generateEmbedding` returns a vector of length exactly 3072 on
every path — the remote path validates the returned array's length and
every failure (including a wrong length) falls back to the deterministic
`generateSimpleVector`, whose output has length 3072.  In this total
model the function returns on every input, i.e. it never throws. -/
theorem generateEmbedding_dimension (r : RemoteResult) (text : String) :
    (generateEmbedding r text).length = EMBEDDING_DIMENSIONS := by
  have hgsv : (generateSimpleVector text).length = EMBEDDING_DIMENSIONS :=
    length_generateSimpleVector text
  cases r with
  | failure => simpa [generateEmbedding] using hgsv
  | success emb =>
      by_cases h : emb.length = EMBEDDING_DIMENSIONS
      · simp [generateEmbedding, h]
      · simpa [generateEmbedding, h] using hgsv

/-! ## C3: cosine similarity -/

theorem dotProduct_self (v : List ℝ) : dotProduct v v = sumSq v := by
  induction v with
  | nil => rfl
  | cons a tl ih =>
      simp only [dotProduct, List.zipWith_cons_cons, List.sum_cons, sumSq,
        List.map_cons] at ih ⊢
      rw [ih]

/-- C3: `cosineSimilarity(v, v) = 1` whenever `v` has nonzero magnitude
("within floating tolerance" is exact equality in the real-number
model), and `cosineSimilarity` returns 0 — it does not fail — on a
length mismatch or a zero-magnitude argument. -/
theorem cosineSimilarity_spec (v a b : List ℝ) (hv : magnitude v ≠ 0)
    (hab : a.length ≠ b.length ∨ magnitude a = 0 ∨ magnitude b = 0) :
    cosineSimilarity v v = 1 ∧ cosineSimilarity a b = 0 := by
  constructor
  · unfold cosineSimilarity
    rw [if_neg (by simp), if_neg (by tauto), dotProduct_self]
    unfold magnitude
    rw [Real.mul_self_sqrt (sumSq_nonneg v)]
    have hs : sumSq v ≠ 0 := by
      intro h
      apply hv
      unfold magnitude
      rw [h, Real.sqrt_zero]
    exact div_self hs
  · unfold cosineSimilarity
    by_cases hlen : a.length ≠ b.length
    · rw [if_pos hlen]
    · rw [if_neg hlen, if_pos (by tauto)]

theorem cosineSimilarity_spec_witness :
    magnitude [(1 : ℝ)] ≠ 0 ∧
    (cosineSimilarity [(1 : ℝ)] [(1 : ℝ)] = 1 ∧
      cosineSimilarity [(1 : ℝ)] [(0 : ℝ), 0] = 0) := by
  have hv : magnitude [(1 : ℝ)] ≠ 0 := by
    unfold magnitude
    have h1 : sumSq [(1 : ℝ)] = 1 := by norm_num [sumSq]
    rw [h1, Real.sqrt_one]
    norm_num
  exact ⟨hv, cosineSimilarity_spec [1] [1] [0, 0] hv (Or.inl (by norm_num))⟩

/-! ## Key-value store lemmas -/

theorem lookup_removeItem_self {α : Type} (l : KV α) (key : String) :
    lookupItem (removeItem l key) key = none := by
  induction l with
  | nil => rfl
  | cons p rest ih =>
      obtain ⟨k, v⟩ := p
      by_cases hk : k = key
      · simpa [removeItem, hk] using ih
      · simpa [removeItem, lookupItem, hk] using ih

theorem lookup_removeItem_none {α : Type} (l : KV α) (key other : String)
    (h : lookupItem l key = none) :
    lookupItem (removeItem l other) key = none := by
  induction l with
  | nil => rfl
  | cons p rest ih =>
      obtain ⟨k, v⟩ := p
      by_cases hko : k = other
      · simp only [lookupItem] at h
        by_cases hk : k = key
        · simp [hk] at h
        · exact (by simpa [removeItem, hko] using ih (by simpa [hk] using h))
      · by_cases hk : k = key
        · simp [lookupItem, hk] at h
        · simpa [removeItem, lookupItem, hko, hk] using
            ih (by simpa [lookupItem, hk] using h)

theorem lookup_foldl_remove_none {α : Type} (chs : List DocumentChunk)
    (e : KV α) (key : String) (h : lookupItem e key = none) :
    lookupItem (chs.foldl (fun db c => removeItem db c.id) e) key = none :=
  foldl_invariant (fun (db : KV α) => lookupItem db key = none) _ chs e h
    (fun db c _ hdb => lookup_removeItem_none db key c.id hdb)

theorem lookup_foldl_remove_chunks {α : Type} :
    ∀ (chs : List DocumentChunk) (e : KV α) (ch : DocumentChunk), ch ∈ chs →
      lookupItem (chs.foldl (fun db c => removeItem db c.id) e) ch.id = none
  | [], _, _, hch => absurd hch (List.not_mem_nil _)
  | c :: tl, e, ch, hch => by
      rcases List.mem_cons.mp hch with rfl | hmem
      · exact lookup_foldl_remove_none tl (removeItem e ch.id) ch.id
          (lookup_removeItem_self e ch.id)
      · exact lookup_foldl_remove_chunks tl (removeItem e c.id) ch hmem

theorem mem_setItem_self {α : Type} (l : KV α) (key : String) (v : α) :
    (key, v) ∈ setItem l key v := by
  induction l with
  | nil => exact List.mem_singleton.mpr rfl
  | cons p rest ih =>
      obtain ⟨k, w⟩ := p
      by_cases hk : k = key
      · simp [setItem, hk]
      · simp only [setItem, hk, if_false]
        exact List.mem_cons_of_mem _ ih

/-! ## C2 and C9: the deletion path -/

/-- C2: deleting a stored document removes every one of its chunks'
embedding records and the document itself — iterating the embedding
store afterwards yields none of the document's chunk ids — and
`clearAllDocuments` empties both stores together.  (The model is the
final state after the two-step delete; the embeddings are removed by the
loop that runs before the document removal.) -/
theorem deleteDocument_no_orphans (d : String) (st : Store)
    (doc : ProcessedDocument) (h : lookupItem st.documents d = some doc) :
    (∀ ch ∈ doc.chunks,
      lookupItem (deleteDocumentPure d st).embeddings ch.id = none) ∧
    lookupItem (deleteDocumentPure d st).documents d = none ∧
    ∀ st2 : Store, clearAllDocuments false st2 = .ok ⟨[], []⟩ := by
  unfold deleteDocumentPure
  rw [h]
  exact ⟨fun ch hch => lookup_foldl_remove_chunks doc.chunks st.embeddings ch hch,
    lookup_removeItem_self st.documents d,
    fun _ => rfl⟩

def sampleMetadata : ChunkMetadata := ⟨"doc.txt", none, 0, .txt⟩

def sampleChunk : DocumentChunk := ⟨"c1", "alpha beta gamma", sampleMetadata, some []⟩

def sampleDoc : ProcessedDocument := ⟨"d1", "doc.txt", .txt, [sampleChunk], none, 0⟩

def sampleRecord : EmbeddingRecord := ⟨"d1", [], "alpha beta gamma", sampleMetadata⟩

def sampleStore : Store := ⟨[("d1", sampleDoc)], [("c1", sampleRecord)]⟩

theorem deleteDocument_no_orphans_witness :
    lookupItem sampleStore.documents "d1" = some sampleDoc ∧
    ((∀ ch ∈ sampleDoc.chunks,
        lookupItem (deleteDocumentPure "d1" sampleStore).embeddings ch.id = none) ∧
      lookupItem (deleteDocumentPure "d1" sampleStore).documents "d1" = none ∧
      ∀ st2 : Store, clearAllDocuments false st2 = .ok ⟨[], []⟩) :=
  ⟨rfl, deleteDocument_no_orphans "d1" sampleStore sampleDoc rfl⟩

/-- C9: deleting an id that is not stored returns normally and leaves
the state unchanged. -/
theorem deleteDocument_absent_noop (d : String) (st : Store)
    (h : lookupItem st.documents d = none) :
    deleteDocument false d st = .ok st := by
  unfold deleteDocument deleteDocumentPure
  rw [h]
  rfl

theorem deleteDocument_absent_noop_witness :
    lookupItem (Store.documents ⟨[], []⟩) "missing" = none ∧
    deleteDocument false "missing" ⟨[], []⟩ = .ok ⟨[], []⟩ :=
  ⟨rfl, deleteDocument_absent_noop "missing" ⟨[], []⟩ rfl⟩

/-! ## C6: store/list round trip -/

/-- C6: after `storeDocument`, `getAllDocuments` lists a document with
the stored id, name, chunk count, and chunks in the stored order (ids
and contents unchanged; only the embedding field is filled in), and the
listing is sorted most-recently-created first over all stored
documents. -/
theorem storeDocument_roundTrip (remote : String → RemoteResult)
    (doc : ProcessedDocument) (st : Store) :
    (∃ d ∈ getAllDocumentsPure (storeDocumentPure remote doc st),
      d.id = doc.id ∧ d.name = doc.name ∧
      d.chunks.length = doc.chunks.length ∧
      d.chunks.map DocumentChunk.id = doc.chunks.map DocumentChunk.id ∧
      d.chunks.map DocumentChunk.content = doc.chunks.map DocumentChunk.content) ∧
    List.Sorted newerFirst (getAllDocumentsPure (storeDocumentPure remote doc st)) := by
  constructor
  · refine ⟨{ doc with chunks := embedChunks remote doc.chunks }, ?_, rfl, rfl, ?_, ?_, ?_⟩
    · unfold getAllDocumentsPure storeDocumentPure
      rw [List.mem_insertionSort]
      exact List.mem_map.mpr ⟨(doc.id, { doc with chunks := embedChunks remote doc.chunks }),
        mem_setItem_self _ _ _, rfl⟩
    · simp [embedChunks]
    · simp [embedChunks]
    · simp [embedChunks]
  · exact List.sorted_insertionSort _ _

/-! ## C7: storage failure propagation -/

/-- The claim fails for `getAllDocuments`: when the underlying storage
throws during iteration, the catch block returns an empty list — a
normal result — instead of propagating a failure. -/
theorem getAllDocuments_swallows_error :
    getAllDocuments true sampleStore = .ok [] ∧
    ∀ e : String, getAllDocuments true sampleStore ≠ .error e := by
  refine ⟨rfl, fun e h => ?_⟩
  simp [getAllDocuments] at h

/-- C7 (amended): `storeDocument`, `deleteDocument` and
`clearAllDocuments` convert a storage error into a generic failure for
the caller; `getAllDocuments` instead catches the error and returns an
empty list. -/
theorem storageFailure_propagation (remote : String → RemoteResult)
    (doc : ProcessedDocument) (d : String) (st1 st2 st3 st4 : Store) :
    storeDocument remote true doc st1 = .error "Failed to store document" ∧
    deleteDocument true d st2 = .error "Failed to delete document" ∧
    clearAllDocuments true st3 = .error "Failed to clear documents" ∧
    getAllDocuments true st4 = .ok [] :=
  ⟨rfl, rfl, rfl, rfl⟩

/-! ## C4: semantic search with lexical fallback -/

open Classical in
/-- C4: the search result is the lexical fallback exactly when the
semantic step retains nothing (or the operation threw); otherwise it is
the retained hits sorted by similarity descending and truncated to
`topK`.  The retained list is empty precisely when no (truthy-content)
record's cosine similarity strictly exceeds the threshold.  (With
`topK = 0` both paths return the empty list, so the extensional equality
below still holds.) -/
theorem searchSimilarChunks_spec (fuse : String → List DocumentChunk → List DocumentChunk)
    (remote : String → RemoteResult) (fail : Bool) (query : String)
    (topK : ℕ) (threshold : ℝ) (st : Store) :
    (searchSimilarChunks fuse remote fail query topK threshold st =
      if fail = true ∨
          semanticRetained (generateEmbedding (remote query) query) threshold st = []
      then fallbackTextSearch fuse query topK st
      else ((List.insertionSort moreSimilar
        (semanticRetained (generateEmbedding (remote query) query) threshold st)).take
          topK).map SearchHit.chunk) ∧
    (semanticRetained (generateEmbedding (remote query) query) threshold st = [] ↔
      ∀ p ∈ st.embeddings, p.2.content ≠ "" →
        cosineSimilarity (generateEmbedding (remote query) query) p.2.embedding ≤
          threshold) := by
  constructor
  · by_cases hf : fail = true
    · rw [if_pos (Or.inl hf)]
      simp [searchSimilarChunks, hf]
    · by_cases hr :
          semanticRetained (generateEmbedding (remote query) query) threshold st = []
      · rw [if_pos (Or.inr hr)]
        simp [searchSimilarChunks, hf, hr, List.insertionSort]
      · rw [if_neg (by tauto)]
        simp only [searchSimilarChunks, hf, Bool.false_eq_true, if_false]
        rcases Nat.eq_zero_or_pos topK with hk | hk
        · subst hk
          simp [fallbackTextSearch]
        · have hlen : (((List.insertionSort moreSimilar
              (semanticRetained (generateEmbedding (remote query) query) threshold
                st)).take topK).map SearchHit.chunk).length ≠ 0 := by
            rw [List.length_map, List.length_take, List.length_insertionSort]
            have := List.length_pos.mpr hr
            omega
          rw [if_neg hlen]
  · unfold semanticRetained
    rw [List.filterMap_eq_nil_iff]
    constructor
    · intro h p hp hcont
      by_contra hlt
      have := h p hp
      rw [if_pos ⟨hcont, not_le.mp hlt⟩] at this
      cases this
    · intro h p hp
      rw [if_neg]
      rintro ⟨hcont, hlt⟩
      exact absurd hlt (not_lt.mpr (h p hp hcont))

/-! ## C5 and C8: chunker bounds -/

/-- The shapes a chunk buffer can be (re)started with when the greedy
accumulation overflows: a single trimmed unit (the over-long-sentence
branch), or the overlap window of some closed buffer joined with `'. '`
and the trimmed unit that triggered the overflow. -/
def SeedBuf (sentences : List String) (ov : ℕ) (buf : String) : Prop :=
  ∃ s ∈ sentences,
    buf = jsTrim s ∨
    ∃ b, buf = joinWords (overlapWindow b ov)
        ++ (if overlapWindow b ov = [] then "" else ". ") ++ jsTrim s

/-- Loop invariant of chunkText: every emitted chunk is within the bound
or is a seed buffer plus the closing period, and the running buffer is
empty, within the bound, or a seed buffer. -/
def ChunkInv (sentences : List String) (m ov : ℕ) (st : ChunkState) : Prop :=
  (∀ c ∈ st.chunks,
    c.length ≤ m + 1 ∨ ∃ buf, SeedBuf sentences ov buf ∧ c = buf ++ ".") ∧
  (st.current = "" ∨ st.current.length ≤ m ∨ SeedBuf sentences ov st.current)

theorem chunkStep_preserves (sentences : List String) (m ov : ℕ)
    (st : ChunkState) (s : String) (hs : s ∈ sentences)
    (h : ChunkInv sentences m ov st) :
    ChunkInv sentences m ov (chunkStep m ov st s) := by
  obtain ⟨hchunks, hcur⟩ := h
  simp only [chunkStep]
  by_cases ht : jsTrim s = ""
  · rw [if_pos ht]
    exact ⟨hchunks, hcur⟩
  · rw [if_neg ht]
    by_cases hemp : st.current = ""
    · -- empty buffer: the separator is empty
      rw [if_pos hemp, if_pos hemp]
      by_cases hlen : (st.current ++ "" ++ jsTrim s).length ≤ m
      · rw [if_pos hlen]
        exact ⟨hchunks, Or.inr (Or.inl hlen)⟩
      · rw [if_neg hlen]
        -- over-long unit: the unit becomes the buffer unsplit
        exact ⟨hchunks, Or.inr (Or.inr ⟨s, hs, Or.inl rfl⟩)⟩
    · rw [if_neg hemp, if_neg hemp]
      by_cases hlen : (st.current ++ ". " ++ jsTrim s).length ≤ m
      · -- the unit still fits: the buffer grows, staying within the bound
        rw [if_pos hlen]
        exact ⟨hchunks, Or.inr (Or.inl hlen)⟩
      · -- overflow: close the buffer as a chunk, seed the next buffer
        rw [if_neg hlen]
        constructor
        · intro c hc
          rcases List.mem_append.mp hc with hold | hnew
          · exact hchunks c hold
          · have hcc : c = st.current ++ "." := by simpa using hnew
            rcases hcur with h0 | hbnd | hseed
            · exact absurd h0 hemp
            · left
              rw [hcc, String.length_append]
              have : ("." : String).length = 1 := rfl
              omega
            · exact Or.inr ⟨st.current, hseed, hcc⟩
        · exact Or.inr (Or.inr ⟨s, hs, Or.inr ⟨st.current, rfl⟩⟩)

/-- C5 (amended): every chunk produced by chunkText either has length at
most `maxChunkSize + 1` (content plus the closing period), or consists
exactly of an oversized buffer seed plus the closing period — where a
seed is a single trimmed unit, or an overlap window joined with `'. '`
and the unit that triggered the previous overflow.  An overflowing seed
receives no further units before being closed, which is why every
oversized chunk has exactly this shape. -/
theorem chunkText_length_bound (text : String) (m ov : ℕ) (c : String)
    (hc : c ∈ chunkText text m ov) :
    c.length ≤ m + 1 ∨
      ∃ buf, SeedBuf (sentencesOf text) ov buf ∧ c = buf ++ "." := by
  have hinv : ChunkInv (sentencesOf text) m ov
      ((sentencesOf text).foldl (chunkStep m ov) ⟨[], ""⟩) :=
    foldl_invariant (ChunkInv (sentencesOf text) m ov) _ (sentencesOf text)
      ⟨[], ""⟩ ⟨fun c hc => absurd hc (List.not_mem_nil c), Or.inl rfl⟩
      (fun st s hs h => chunkStep_preserves (sentencesOf text) m ov st s hs h)
  simp only [chunkText] at hc
  have hc' := (List.mem_filter.mp hc).1
  by_cases hcur : ((sentencesOf text).foldl (chunkStep m ov) ⟨[], ""⟩).current = ""
  · rw [if_pos hcur] at hc'
    exact hinv.1 c hc'
  · rw [if_neg hcur] at hc'
    rcases List.mem_append.mp hc' with hold | hnew
    · exact hinv.1 c hold
    · have hcc : c =
          ((sentencesOf text).foldl (chunkStep m ov) ⟨[], ""⟩).current ++ "." := by
        simpa using hnew
      rcases hinv.2 with h0 | hlen | hseed
      · exact absurd h0 hcur
      · left
        rw [hcc, String.length_append]
        have : ("." : String).length = 1 := rfl
        omega
      · exact Or.inr ⟨_, hseed, hcc⟩

theorem chunkText_length_bound_witness :
    ("hello world. this is a test.") ∈ chunkText "hello world. this is a test" 1000 100 ∧
    (("hello world. this is a test.").length ≤ 1000 + 1 ∨
      ∃ buf, SeedBuf (sentencesOf "hello world. this is a test") 100 buf ∧
        ("hello world. this is a test.") = buf ++ ".") :=
  ⟨by decide, chunkText_length_bound "hello world. this is a test" 1000 100 _ (by decide)⟩

/-- A text whose three units all have trimmed length at most 1000 (802,
400 and 16 characters), but whose middle output chunk — an overlap
window of 800 characters re-joined with a 400-character unit — has
length 1203 > 1001. -/
def overflowText : String :=
  "a " ++ String.mk (List.replicate 800 'w') ++ ". "
    ++ String.mk (List.replicate 400 'x') ++ ". end of line here"

set_option maxRecDepth 100000 in
/-- Refutation of C5 as stated: with the default parameters, chunkText
can emit a chunk longer than `maxSize + 1` even though every
sentence-like unit of the input is within `maxSize` (so no chunk "arises
from a single unit longer than maxSize"); the bound fails precisely for
a chunk whose buffer was seeded with the overlap window of the
previously closed chunk. -/
theorem chunkText_length_bound_counterexample :
    (∀ s ∈ sentencesOf overflowText, (jsTrim s).length ≤ 1000) ∧
    ∃ c ∈ chunkText overflowText 1000 100, 1000 + 1 < c.length := by
  decide

/-- C8: every chunk chunkText emits has trimmed length strictly greater
than 10 — the final filter discards everything else. -/
theorem chunkText_trimmed_length (text : String) (m ov : ℕ) (c : String)
    (hc : c ∈ chunkText text m ov) : 10 < (jsTrim c).length := by
  simp only [chunkText] at hc
  exact of_decide_eq_true (List.mem_filter.mp hc).2

theorem chunkText_trimmed_length_witness :
    ("hello there world. ok go.") ∈ chunkText "hello there world. ok go" 1000 100 ∧
    10 < (jsTrim "hello there world. ok go.").length :=
  ⟨by decide, chunkText_trimmed_length "hello there world. ok go" 1000 100 _ (by decide)⟩

end Excellor
